import Mathlib

/-!
Shallow embedding of `BuildSystem/common/license_scanner.py` (dependency
license scanner) and proofs about the claims concerning it.

Python dictionaries are modelled as association lists with first-match
lookup; assignment replaces the first matching key in place and otherwise
appends, which preserves Python's insertion order for `dict.values()`.
Network calls, the filesystem, the `ninka` classifier and `pip show` are
modelled as explicit oracles; a `none` result of an oracle models a raised
exception where the source catches one.  Exceptions that the source does
not catch are modelled with `Except`.
-/

namespace LicenseScanner

/-! ## Python dict model -/

/-- Lookup in a Python-dict association list (first match wins). -/
def dictGet {α : Type} : List (String × α) → String → Option α
  | [], _ => none
  | (k, v) :: rest, key => if k = key then some v else dictGet rest key

/-- Python dict assignment: replace the first binding of the key, else append. -/
def dictSet {α : Type} : List (String × α) → String → α → List (String × α)
  | [], k, v => [(k, v)]
  | (k', v') :: rest, k, v =>
    if k' = k then (k, v) :: rest else (k', v') :: dictSet rest k v

/-- In-place update of the value bound to a key, as Python mutation of `d[k]`. -/
def dictModify {α : Type} : List (String × α) → String → (α → α) → List (String × α)
  | [], _, _ => []
  | (k', v) :: rest, k, f =>
    if k' = k then (k', f v) :: rest else (k', v) :: dictModify rest k f

/-- Python `dict.values()`: values in insertion order. -/
def dictValues {α : Type} (m : List (String × α)) : List α := m.map Prod.snd

/-! ## String helpers (char-list based, mirroring the Python `str` methods used) -/

/-- Python `s.upper()` (ASCII suffices for the strings involved). -/
def strUpper (s : String) : String := String.mk (s.toList.map Char.toUpper)

/-- Python `s.startswith(pre)`. -/
def strStartsWith (s pre : String) : Bool := pre.toList.isPrefixOf s.toList

/-- Python `s.endswith(suf)`. -/
def strEndsWith (s suf : String) : Bool := suf.toList.isSuffixOf s.toList

/-- Python `s[:-n]` for `n ≤ len s`. -/
def strDropRight (s : String) (n : Nat) : String :=
  String.mk (s.toList.take (s.toList.length - n))

/-- Python `s[n:]`. -/
def strDropLeft (s : String) (n : Nat) : String := String.mk (s.toList.drop n)

/-- Python `s.replace('-', '_')` as used on pip package names. -/
def strHyphenToUnderscore (s : String) : String :=
  String.mk (s.toList.map fun c => if c = '-' then '_' else c)

/-- Python `"%s" % x` for `x` an `Optional[str]`: `None` renders as `"None"`. -/
def optStr : Option String → String
  | some s => s
  | none => "None"

/-- Python truthiness of an optional string (`None` and `''` are falsy). -/
def optTruthy : Option String → Bool
  | none => false
  | some s => !(s = "")

/-- Split at the first occurrence of `'-'`: models Python `s.split('-', 1)`,
    returning the part before the hyphen and, when a hyphen exists, the rest. -/
def breakAtHyphen : List Char → List Char × Option (List Char)
  | [] => ([], none)
  | c :: cs =>
    if c = '-' then ([], some cs)
    else
      let r := breakAtHyphen cs
      (c :: r.1, r.2)

/-- Python `s.split(sep)` for a single-character separator (keeps empty pieces). -/
def splitChar (sep : Char) : List Char → List (List Char)
  | [] => [[]]
  | c :: cs =>
    if c = sep then [] :: splitChar sep cs
    else
      match splitChar sep cs with
      | r :: rs => (c :: r) :: rs
      | [] => [[c]]

/-- First occurrence of the pattern inside a char list: returns the part before
    the pattern and the part after it, if the pattern occurs. -/
def breakOnSubstr (pat : List Char) : List Char → Option (List Char × List Char)
  | [] => none
  | c :: cs =>
    if pat.isPrefixOf (c :: cs) then some ([], (c :: cs).drop pat.length)
    else
      match breakOnSubstr pat cs with
      | some (a, b) => some (c :: a, b)
      | none => none

/-! ## Module-level constants of the source -/

def PREREQS_DIRECTORY : String := ".prereqs/Darwin-x86_64"

def PREREQS_LICENSE_FILE : String := "Dependencies/prereqs-licenses.json"

/-! ## License entries

A license entry is a JSON object; the fields below are the ones the scanner
reads or writes (`usedBy`, `spdxId`, `isOsiApproved`, `manuallyEdited` stand
for the `x-`prefixed keys).  `extra` holds any remaining keys (for example
`x-comments`), which the scanner never touches.  An `Option` field is `none`
when the key is absent (or bound to JSON `null`, which the source treats the
same way through `dict.get`). -/

structure License where
  moduleName : String
  moduleVersion : Option String := none
  moduleLicense : Option String := none
  moduleUrl : Option String := none
  moduleLicenseUrl : Option String := none
  usedBy : Option (List String) := none
  spdxId : Option String := none
  isOsiApproved : Option Bool := none
  manuallyEdited : Bool := false
  extra : List (String × String) := []
deriving DecidableEq

/-! ## The `_SPDX` table -/

structure SPDXEntry where
  licenseId : String
  name : String
  isOsiApproved : Bool
deriving DecidableEq

structure SPDX where
  entries : List (String × SPDXEntry)
  name_map : List (String × String)
deriving DecidableEq

/-- `_SPDX.__init__`: index the catalog by license id and by display name. -/
def mkSPDX (licenses : List SPDXEntry) : SPDX :=
  { entries := licenses.foldl (fun m lic => dictSet m lic.licenseId lic) []
    name_map := licenses.foldl (fun m lic => dictSet m lic.name lic.licenseId) [] }

/-- `_SPDX._ninka_fallbacks`. -/
def ninka_fallbacks : List (String × String) :=
  [("spdxBSD3", "BSD-3-Clause"), ("Apache-2", "Apache-2.0")]

/-- `_SPDX.get_entry`. -/
def get_entry (t : SPDX) (licenseid : String) : Option SPDXEntry :=
  dictGet t.entries licenseid

/-- `_SPDX._try_name_search` (`if licenseid:` is Python truthiness, so an
    empty id is treated like a missing one). -/
def try_name_search (t : SPDX) (name : String) : Option SPDXEntry :=
  match dictGet t.name_map name with
  | some licenseid => if licenseid = "" then none else get_entry t licenseid
  | none => none

/-- `_SPDX._try_ninka_overrides` for a (non-`None`) string argument. -/
def try_ninka_overrides (t : SPDX) (name : String) : Option SPDXEntry :=
  match dictGet ninka_fallbacks name with
  | some licenseid => if licenseid = "" then none else get_entry t licenseid
  | none =>
    if strStartsWith name "spdx" then get_entry t (strDropLeft name 4) else none

/-- `_SPDX.search` for a (non-`None`) string argument. -/
def search (t : SPDX) (srch : String) : Option SPDXEntry :=
  match get_entry t srch with
  | some e => some e
  | none =>
    match try_name_search t srch with
    | some e => some e
    | none => try_ninka_overrides t srch

/-- `_SPDX.search` on an `Optional[str]`.  `dict.get(None)` in `get_entry` and
    `_try_name_search` simply misses, but `_try_ninka_overrides` then evaluates
    `None.startswith('spdx')`, which raises `AttributeError`; the raise is the
    `.error` case. -/
def searchChecked (t : SPDX) : Option String → Except Unit (Option SPDXEntry)
  | some srch => .ok (search t srch)
  | none => .error ()

/-- `_SPDX.set_into_license`: copy catalog data into a license entry. -/
def set_into_license (entry : SPDXEntry) (lic : License) : License :=
  { lic with
    moduleLicense := some entry.name
    spdxId := some entry.licenseId
    isOsiApproved := some entry.isOsiApproved }

/-- The lookup cascade exactly as §4.1 of the spec words it: exact id match,
    then exact display-name match, then the classifier-quirk table, then
    stripping the erroneous `spdx` prefix and retrying the id lookup; the
    first strategy producing an entry wins. -/
def spec_search (t : SPDX) (srch : String) : Option SPDXEntry :=
  match get_entry t srch with
  | some e => some e
  | none =>
    match try_name_search t srch with
    | some e => some e
    | none =>
      match (match dictGet ninka_fallbacks srch with
             | some licenseid => if licenseid = "" then none else get_entry t licenseid
             | none => none) with
      | some e => some e
      | none =>
        if strStartsWith srch "spdx" then get_entry t (strDropLeft srch 4) else none

/-! ## String ordering (Python `<` on `str` is lexicographic by code point) -/

/-- Lexicographic strict order on char lists, as Python compares strings. -/
def charListLt : List Char → List Char → Bool
  | [], [] => false
  | [], _ :: _ => true
  | _ :: _, [] => false
  | a :: as, b :: bs => if a < b then true else if b < a then false else charListLt as bs

/-- Python `a < b` on strings. -/
def strLt (a b : String) : Bool := charListLt a.toList b.toList

/-! ## `Scanner.ensure_used_by` -/

/-- `bisect.insort` on a list sorted by `strLt` (linear-scan formulation; it
    agrees with the bisection algorithm on sorted input, the only input the
    scanner produces). -/
def insort (x : String) : List String → List String
  | [] => [x]
  | y :: ys => if strLt x y then x :: y :: ys else y :: insort x ys

/-- `Scanner.ensure_used_by`: make sure the module name is in the `x-usedBy`
    list, inserting in sorted position; create the list when absent. -/
def ensure_used_by (modulename : String) (lic : License) : License :=
  match lic.usedBy with
  | some l => if modulename ∈ l then lic else { lic with usedBy := some (insort modulename l) }
  | none => { lic with usedBy := some [modulename] }

/-- `Scanner._should_add_to_used_by`: `'x-usedBy' not in lic`. -/
def should_add_to_used_by (lic : License) : Bool := lic.usedBy = none

/-! ## The `_GitHubAPI` adapter

Network traffic is modelled by a `Network` oracle: `rateLimit` is the value of
`_get("https://api.github.com/rate_limit")['rate']['remaining']` (`none` when
that call raises) and `repos key org` is the result of
`_get("https://api.github.com/<key>/<org>/repos")` (`none` when it raises).
Every transition returns, besides its result and the successor state, the
number of `_get` network calls it performed. -/

structure GHProject where
  name : String
  license : Option String
deriving DecidableEq

structure GitHubState where
  cached : List (String × List GHProject)
  remainingCalls : Int
deriving DecidableEq

structure Network where
  rateLimit : Option Nat
  repos : String → String → Option (List GHProject)

/-- `_GitHubAPI.__init__`. -/
def initGitHubState : GitHubState := { cached := [], remainingCalls := -1 }

/-- `_GitHubAPI._license_from_entry`: the first project of the listing whose
    name matches; its `spdx_id` (possibly absent) is the answer. -/
def license_from_entry (projects : List GHProject) (project_name : String) : Option String :=
  match projects.find? (fun p => p.name == project_name) with
  | some p => p.license
  | none => none

/-- `_GitHubAPI._can_call_github`.  A `none` oracle value models the caught
    exception (budget left at `-1`, so a later call re-fetches). -/
def can_call_github (net : Network) (s : GitHubState) : Bool × GitHubState × Nat :=
  if s.remainingCalls = -1 then
    match net.rateLimit with
    | none => (false, s, 1)
    | some r =>
      if (r : Int) > 0 then (true, { s with remainingCalls := (r : Int) - 1 }, 1)
      else (false, { s with remainingCalls := (r : Int) }, 1)
  else
    if s.remainingCalls > 0 then (true, { s with remainingCalls := s.remainingCalls - 1 }, 0)
    else (false, s, 0)

/-- `_GitHubAPI._try_api`: one guarded repository-listing fetch; a raising
    `_get` (oracle `none`) is caught and turned into `None`. -/
def try_api (net : Network) (key organization : String) (s : GitHubState) :
    Option (List GHProject) × GitHubState × Nat :=
  let r := can_call_github net s
  if r.1 then
    match net.repos key organization with
    | none => (none, r.2.1, r.2.2 + 1)
    | some ps => (some ps, r.2.1, r.2.2 + 1)
  else (none, r.2.1, r.2.2)

/-- The netloc/path split of `urllib.parse.urlparse` for the URL shapes the
    scanner meets: a `"://"` separates the scheme from the netloc, which runs
    to the next `'/'`; without `"://"` the whole string is the path. -/
def urlsplit (u : List Char) : List Char × List Char :=
  match breakOnSubstr "://".toList u with
  | none => ([], u)
  | some (_, after) => (after.takeWhile (fun c => !(c = '/')), after.dropWhile (fun c => !(c = '/')))

/-- `_GitHubAPI._parse_url`, returning the host and the non-empty path
    segments; the loop in the source takes the first such segment as the
    organization and the second as the project. -/
def parse_url (url : Option String) : Option String × List String :=
  match url with
  | none => (none, [])
  | some u =>
    if u = "" then (none, [])
    else
      let hp := urlsplit u.toList
      (some (String.mk hp.1), ((splitChar '/' hp.2).filter (fun p => !(p = []))).map String.mk)

/-- `_GitHubAPI.lookup`.  The `.error` result models the uncaught
    `AttributeError` of `project.endswith('.git')` when the parsed project
    segment is `None` (missing URL, or a path with fewer than two non-empty
    segments). -/
def lookup (net : Network) (s : GitHubState) (url : Option String) :
    Except Unit (Option String) × GitHubState × Nat :=
  match parse_url url with
  | (_, []) => (.error (), s, 0)
  | (_, [_]) => (.error (), s, 0)
  | (host, organization :: project :: _) =>
    let project := if strEndsWith project ".git" then strDropRight project 4 else project
    match dictGet s.cached organization with
    | some projects => (.ok (license_from_entry projects project), s, 0)
    | none =>
      if host = some "github.com" then
        let r1 := try_api net "orgs" organization s
        match r1.1 with
        | some ps =>
          (.ok (license_from_entry ps project),
           { r1.2.1 with cached := dictSet r1.2.1.cached organization ps }, r1.2.2)
        | none =>
          let r2 := try_api net "users" organization r1.2.1
          match r2.1 with
          | some ps =>
            (.ok (license_from_entry ps project),
             { r2.2.1 with cached := dictSet r2.2.1.cached organization ps }, r1.2.2 + r2.2.2)
          | none => (.ok none, r2.2.1, r1.2.2 + r2.2.2)
      else (.ok none, s, 0)

/-- The answer the cache alone can give for a URL (used to state what `lookup`
    does once the call budget is exhausted). -/
def cachedAnswer (s : GitHubState) (url : Option String) : Option String :=
  match parse_url url with
  | (_, organization :: project :: _) =>
    let project := if strEndsWith project ".git" then strDropRight project 4 else project
    match dictGet s.cached organization with
    | some projects => license_from_entry projects project
    | none => none
  | (_, _) => none

/-! ## `Scanner._adjust_and_add_new_licenses` (the merge step) -/

/-- The `if licenseid: ... get_entry ...` enrichment applied to a fresh entry
    after a successful GitHub lookup. -/
def github_enrich (t : SPDX) (licenseid? : Option String) (lic : License) : License :=
  match licenseid? with
  | some licenseid =>
    if licenseid = "" then lic
    else
      match get_entry t licenseid with
      | some entry => set_into_license entry lic
      | none => lic
  | none => lic

/-- The merge loop of `Scanner._adjust_and_add_new_licenses`: each incoming
    entry whose module name is already a key only gets the existing entry's
    `x-usedBy` refreshed (when the incoming entry carries none); a fresh entry
    is enriched through `_SPDX.search` and, failing that, `_GitHubAPI.lookup`
    before being inserted.  `.error` propagates the uncaught exceptions of
    those two calls. -/
def adjust_and_add_new_licenses (t : SPDX) (net : Network) (modulename : String) :
    List License → List (String × License) → GitHubState →
    Except Unit (List (String × License) × GitHubState)
  | [], licenses, gh => .ok (licenses, gh)
  | lic :: rest, licenses, gh =>
    let key := lic.moduleName
    match dictGet licenses key with
    | some _ =>
      let licenses' :=
        if should_add_to_used_by lic then dictModify licenses key (ensure_used_by modulename)
        else licenses
      adjust_and_add_new_licenses t net modulename rest licenses' gh
    | none =>
      let lic1 := if should_add_to_used_by lic then ensure_used_by modulename lic else lic
      match searchChecked t lic1.moduleLicense with
      | .error e => .error e
      | .ok (some entry) =>
        adjust_and_add_new_licenses t net modulename rest
          (dictSet licenses key (set_into_license entry lic1)) gh
      | .ok none =>
        let r := lookup net gh lic1.moduleUrl
        match r.1 with
        | .error e => .error e
        | .ok licenseid? =>
          adjust_and_add_new_licenses t net modulename rest
            (dictSet licenses key (github_enrich t licenseid? lic1)) r.2.1

/-! ## `KSSPrereqScanner._parse_tarball_name` -/

/-- `_parse_tarball_name`: strip a `.tar.gz` suffix, derive the checkout
    directory, and split the stem into name and version at the first hyphen. -/
def parse_tarball_name (filename : String) : String × Option String × String :=
  let cs := filename.toList
  let stem := if strEndsWith filename ".tar.gz" then cs.take (cs.length - 7) else cs
  let directory := PREREQS_DIRECTORY ++ "/" ++ String.mk stem
  let parts := breakAtHyphen stem
  (String.mk parts.1, parts.2.map String.mk, directory)

/-- The name/version split exactly as the spec words it: the `.tar.gz` suffix
    is stripped and the remainder is split into name and version at the first
    hyphen (no version when the remainder has no hyphen). -/
def spec_name_version (filename : String) : String × Option String :=
  let stem :=
    if strEndsWith filename ".tar.gz" then strDropRight filename 7 else filename
  let parts := breakAtHyphen stem.toList
  (String.mk parts.1, parts.2.map String.mk)

/-! ## The directory-based scanners

The filesystem is an oracle: `listDir` is `os.listdir` (`none` models the
caught `FileNotFoundError`), `isDir` is `os.path.isdir`, `isFile` is
`os.path.isfile`.  `readDeps f` is the `dependencies` array parsed from the
JSON file `f` (only consulted after an `isFile` check) and `ninka f` is the
classification string the external `ninka` tool prints for the file `f`. -/

structure FileSys where
  listDir : String → Option (List String)
  isDir : String → Bool
  isFile : String → Bool

structure Env where
  fsys : FileSys
  readDeps : String → List License
  ninka : String → String
  spdx : SPDX

/-- `_get_license_filename`: first directory entry whose upper-cased name
    starts with `LICENSE`; a missing directory gives `None`. -/
def get_license_filename (fs : FileSys) (dirname : String) : Option String :=
  match fs.listDir dirname with
  | none => none
  | some entries => entries.find? (fun e => strStartsWith (strUpper e) "LICENSE")

/-- `Scanner.guess_license_with_ninka`: run the classifier, then canonicalize
    through the SPDX table when it recognizes the output. -/
def guess_license_with_ninka (t : SPDX) (ninka : String → String) (filename : String) : String :=
  let licensetype := ninka filename
  match search t licensetype with
  | some entry => entry.name
  | none => licensetype

/-- A prerequisite descriptor as `get_project_list` produces it. -/
structure Prereq where
  name : String
  version : Option String
  directory : Option String
  url : Option String
deriving DecidableEq

/-- The dictionary `_details_for_prereq` builds. -/
structure Details where
  name : String
  version : Option String
  directory : Option String
  url : Option String
  otherLicenses : Option (List License)
  license : String
deriving DecidableEq

/-- `DirectoryBasedScanner._get_other_licenses`.  Note `"%s/%s" % (None, f)`
    renders the missing directory as the literal path component `None`. -/
def get_other_licenses (env : Env) (directory : Option String) : Option (List License) :=
  let filename := optStr directory ++ "/" ++ PREREQS_LICENSE_FILE
  if env.fsys.isFile filename then some (env.readDeps filename) else none

/-- `DirectoryBasedScanner._details_for_prereq`.  When no `LICENSE*` entry is
    found, `"%s/%s" % (directory, None)` produces the path `<dir>/None`, and
    `ninka` runs on it whenever a file of that name happens to exist. -/
def details_for_prereq (env : Env) (entry : Prereq) : Details :=
  let directory := entry.directory
  let license :=
    match directory with
    | some d =>
      if env.fsys.isDir d then
        let filename := d ++ "/" ++ optStr (get_license_filename env.fsys d)
        if env.fsys.isFile filename then guess_license_with_ninka env.spdx env.ninka filename
        else "Unknown"
      else "Unknown"
    | none => "Unknown"
  { name := entry.name, version := entry.version, directory := entry.directory,
    url := entry.url, otherLicenses := get_other_licenses env directory,
    license := license }

/-- `DirectoryBasedScanner._license_from_details` (`if details['version']:`
    and `if details['url']:` are Python truthiness checks). -/
def license_from_details (details : Details) : License :=
  { moduleName := details.name
    moduleVersion := if optTruthy details.version then details.version else none
    moduleUrl := if optTruthy details.url then details.url else none
    moduleLicense := some (if details.license = "" then "Unknown" else details.license) }

/-! ## `_write_licenses`

The only file the function may touch is the fixed report path; the filesystem
is therefore modelled as the flag for the `Dependencies` directory plus the
(structured) content of the report file, `none` when the file does not exist.
Python's `sorted` is a stable sort; `insertLe`/`sortByName` below compute the
stable sort by `moduleName`, hence exactly the list `sorted` produces. -/

structure ReportFS where
  depDirExists : Bool
  reportFile : Option (List License)
deriving DecidableEq

/-- Python `a.moduleName <= b.moduleName`, the sort key comparison. -/
def nameLe (a b : License) : Bool := !(strLt b.moduleName a.moduleName)

/-- Insert before the first element not below `x` (stable insertion). -/
def insertLe (x : License) : List License → List License
  | [] => [x]
  | y :: ys => if nameLe x y then x :: y :: ys else y :: insertLe x ys

/-- Stable insertion sort by `moduleName`: the list
    `sorted(licenses.values(), key=lambda x: x['moduleName'])`. -/
def sortByName : List License → List License
  | [] => []
  | x :: xs => insertLe x (sortByName xs)

/-- `_write_licenses`: nothing happens on an empty mapping; otherwise the
    `Dependencies` directory is ensured and the report overwritten with the
    entries sorted by module name. -/
def write_licenses (licenses : List (String × License)) (fs : ReportFS) : ReportFS :=
  if 0 < licenses.length then
    { depDirExists := true, reportFile := some (sortByName (dictValues licenses)) }
  else fs

/-! ## `PipScanner`

`pip show` output is the oracle `pipInfo`; `none` models an empty output
(package not installed), and otherwise the fields are the parsed values, each
`none` when the corresponding line is absent or empty. -/

structure PipDetails where
  name : Option String := none
  version : Option String := none
  location : Option String := none
  homePage : Option String := none
  license : Option String := none
  requires : List String := []
deriving DecidableEq

structure PipEnv where
  pipInfo : String → Option PipDetails
  fsys : FileSys
  ninka : String → String
  spdx : SPDX

/-- `PipScanner._get_pip_license_filename`: probe the two `dist-info`
    directory spellings for a `LICENSE*` file. -/
def get_pip_license_filename (fs : FileSys) (d : PipDetails) : Option String :=
  match d.location, d.version, d.name with
  | some location, some version, some pipname =>
    let dirname := location ++ "/" ++ pipname ++ "-" ++ version ++ ".dist-info"
    match get_license_filename fs dirname with
    | some f => some (dirname ++ "/" ++ f)
    | none =>
      let dirname2 :=
        location ++ "/" ++ strHyphenToUnderscore pipname ++ "-" ++ version ++ ".dist-info"
      match get_license_filename fs dirname2 with
      | some f => some (dirname2 ++ "/" ++ f)
      | none => none
  | _, _, _ => none

/-- One pass of the `for req in requires:` loop body, threading the mapping;
    `none` is exhausted recursion depth and `.error` a propagating exception. -/
def pipFold (step : String → List (String × License) → Option (Except Unit (List (String × License)))) :
    List String → List (String × License) → Option (Except Unit (List (String × License)))
  | [], licenses => some (.ok licenses)
  | req :: rest, licenses =>
    match step req licenses with
    | none => none
    | some (.error e) => some (.error e)
    | some (.ok licenses') => pipFold step rest licenses'

/-- `PipScanner._add_pip_license_for`.  The fuel argument bounds the recursion
    depth (the Python recursion has no guard beyond the membership check, so a
    cyclic `Requires` graph exhausts any finite depth, modelled by `none`).
    The `.error` case is the uncaught `AttributeError` that
    `self.spdx.search(licensetype)` raises when the package metadata carries
    no `License` value. -/
def add_pip_license_for (env : PipEnv) :
    Nat → String → Option String → List (String × License) →
    Option (Except Unit (List (String × License)))
  | 0, _, _, _ => none
  | fuel + 1, pip, used_by, licenses =>
    if (dictGet licenses pip).isSome then some (.ok licenses)
    else
      match env.pipInfo pip with
      | none =>
        let lic : License := { moduleName := pip, moduleLicense := some "Unknown" }
        let lic := match used_by with | some ub => ensure_used_by ub lic | none => lic
        some (.ok (dictSet licenses pip lic))
      | some details =>
        match pipFold (fun req l => add_pip_license_for env fuel req (some pip) l)
            details.requires licenses with
        | none => none
        | some (.error e) => some (.error e)
        | some (.ok licenses') =>
          match searchChecked env.spdx details.license with
          | .error e => some (.error e)
          | .ok entry0 =>
            let entry1 :=
              match entry0 with
              | some e => some e
              | none =>
                match get_pip_license_filename env.fsys details with
                | some licensefilename =>
                  search env.spdx (guess_license_with_ninka env.spdx env.ninka licensefilename)
                | none => none
            let licensetype : Option String :=
              match entry1 with
              | some e => some e.name
              | none => details.license
            let lic : License :=
              { moduleName := pip, moduleLicense := licensetype,
                moduleVersion := details.version, moduleUrl := details.homePage }
            let lic := match used_by with | some ub => ensure_used_by ub lic | none => lic
            some (.ok (dictSet licenses' pip lic))

/-! ## Predicates used in the statements -/

/-- Forget the `x-usedBy` field: two entries with the same `clearUsedBy`
    image agree on every field except `x-usedBy`. -/
def clearUsedBy (lic : License) : License := { lic with usedBy := none }

/-- The `x-usedBy` list of an entry, when present, is strictly sorted (hence
    de-duplicated and lexicographically ordered). -/
def usedByInv (lic : License) : Prop :=
  ∀ l, lic.usedBy = some l → l.Pairwise (fun a b => strLt a b = true)

/-- Every entry of the aggregate mapping satisfies `usedByInv`. -/
def mapUsedByInv (m : List (String × License)) : Prop :=
  ∀ k lic, dictGet m k = some lic → usedByInv lic

/-! ## Concrete instances for the closed theorems -/

def exCatalog : List SPDXEntry :=
  [⟨"MIT", "MIT License", true⟩, ⟨"BSD-3-Clause", "BSD 3-Clause License", true⟩,
   ⟨"Apache-2.0", "Apache License 2.0", true⟩]

def exSPDX : SPDX := mkSPDX exCatalog

/-- A network where every call raises (models an offline run). -/
def exNetDown : Network := ⟨none, fun _ _ => none⟩

/-- A manually curated prior-report entry. -/
def exManual : License :=
  { moduleName := "m", moduleVersion := some "1.0", moduleLicense := some "Custom",
    manuallyEdited := true, extra := [("x-comments", "curated")] }

/-- An incoming scanner entry for the same module as `exManual`. -/
def exIncoming : License := { moduleName := "m", moduleLicense := some "Other" }

/-- The aggregate mapping after merging `exIncoming` over `exManual`. -/
def exMergedManual : List (String × License) :=
  [("m", { exManual with usedBy := some ["mod"] })]

/-- An incoming entry that already carries an unsorted `x-usedBy` list. -/
def exLicUnsorted : License :=
  { moduleName := "A", moduleLicense := some "MIT", usedBy := some ["b", "a"] }

/-- What the merge inserts for `exLicUnsorted`: the SPDX data is filled in,
    the unsorted `x-usedBy` list is kept verbatim. -/
def exLicUnsortedOut : License :=
  { moduleName := "A", moduleLicense := some "MIT License", usedBy := some ["b", "a"],
    spdxId := some "MIT", isOsiApproved := some true }

/-- An incoming entry with a sorted `x-usedBy` list. -/
def exLicSorted : License :=
  { moduleName := "A", moduleLicense := some "MIT", usedBy := some ["a", "b"] }

/-- What the merge inserts for `exLicSorted`. -/
def exLicSortedOut : License :=
  { moduleName := "A", moduleLicense := some "MIT License", usedBy := some ["a", "b"],
    spdxId := some "MIT", isOsiApproved := some true }

def exMergedSorted : List (String × License) := [("A", exLicSortedOut)]

def exProjects : List GHProject := [⟨"proj", some "MIT"⟩]

/-- A GitHub oracle granting exactly one API call before the budget is spent. -/
def exNetGH : Network := ⟨some 1, fun _ _ => some exProjects⟩

def exGHUrl : Option String := some "https://github.com/org/proj"

/-- The adapter state after one successful lookup through `exNetGH`: the
    organization is cached and the remaining-call budget is zero. -/
def exGHCached : GitHubState := ⟨[("org", exProjects)], 0⟩

/-- A directory `d` containing the single file `None` and nothing else. -/
def exFS : FileSys :=
  ⟨fun d => if d = "d" then some ["None"] else none,
   fun d => d == "d",
   fun f => f == "d/None"⟩

def exEnv : Env := ⟨exFS, fun _ => [], fun _ => "MIT", mkSPDX []⟩

def exPrereq : Prereq := ⟨"p", none, some "d", none⟩

def emptyFS : FileSys := ⟨fun _ => none, fun _ => false, fun _ => false⟩

/-- `pip show` oracle: package `a` requires `b`; both carry an MIT license. -/
def exPipInfo : String → Option PipDetails :=
  fun p =>
    if p = "a" then some { requires := ["b"], license := some "MIT" }
    else if p = "b" then some { license := some "MIT" }
    else none

def exPipEnv : PipEnv := ⟨exPipInfo, emptyFS, fun _ => "x", exSPDX⟩

/-- A rank function witnessing that `exPipInfo`'s `Requires` graph is acyclic. -/
def exRank : String → Nat := fun p => if p = "a" then 1 else 0

/-- `pip show` oracle: package `c` is installed but its metadata carries no
    `License` line. -/
def exPipInfoNoLicense : String → Option PipDetails :=
  fun p => if p = "c" then some {} else none

def exPipEnvNoLicense : PipEnv := ⟨exPipInfoNoLicense, emptyFS, fun _ => "x", exSPDX⟩

def exReport : ReportFS := ⟨false, some [exManual]⟩

/-! # Lemmas about the association-list dictionary -/

theorem dictGet_dictSet {α : Type} (m : List (String × α)) (k k' : String) (v : α) :
    dictGet (dictSet m k v) k' = if k = k' then some v else dictGet m k' := by
  induction m with
  | nil => simp [dictSet, dictGet]
  | cons kv rest ih =>
    obtain ⟨k0, v0⟩ := kv
    by_cases h0 : k0 = k
    · subst h0
      by_cases h1 : k0 = k' <;> simp [dictSet, dictGet, h1]
    · by_cases h1 : k0 = k'
      · subst h1
        have : ¬ k = k0 := fun h => h0 h.symm
        simp [dictSet, dictGet, h0, this]
      · simp [dictSet, dictGet, h0, h1, ih]

theorem dictGet_dictModify {α : Type} (m : List (String × α)) (k k' : String) (f : α → α) :
    dictGet (dictModify m k f) k' = if k = k' then (dictGet m k').map f else dictGet m k' := by
  induction m with
  | nil => simp [dictModify, dictGet]
  | cons kv rest ih =>
    obtain ⟨k0, v0⟩ := kv
    by_cases h0 : k0 = k
    · subst h0
      by_cases h1 : k0 = k' <;> simp [dictModify, dictGet, h1]
    · by_cases h1 : k0 = k'
      · subst h1
        have : ¬ k = k0 := fun h => h0 h.symm
        simp [dictModify, dictGet, h0, this]
      · simp [dictModify, dictGet, h0, h1, ih]

/-! # Lemmas about the string order -/

theorem charListLt_asymm : ∀ as bs : List Char,
    charListLt as bs = true → charListLt bs as = false := by
  intro as
  induction as with
  | nil => intro bs h; cases bs <;> simp_all [charListLt]
  | cons a as ih =>
    intro bs h
    cases bs with
    | nil => simp [charListLt] at h
    | cons b bs =>
      by_cases hab : a < b
      · have hba : ¬ b < a := lt_asymm hab
        simp [charListLt, hab, hba]
      · by_cases hba : b < a
        · simp [charListLt, hab, hba] at h
        · simp only [charListLt, if_neg hab, if_neg hba] at h
          simp [charListLt, hab, hba, ih bs h]

theorem charListLt_connex : ∀ as bs : List Char,
    charListLt as bs = false → charListLt bs as = false → as = bs := by
  intro as
  induction as with
  | nil => intro bs h _; cases bs <;> simp_all [charListLt]
  | cons a as ih =>
    intro bs h1 h2
    cases bs with
    | nil => simp [charListLt] at h2
    | cons b bs =>
      by_cases hab : a < b
      · simp [charListLt, hab] at h1
      · by_cases hba : b < a
        · simp [charListLt, hba] at h2
        · have hab' : a = b := le_antisymm (not_lt.mp hba) (not_lt.mp hab)
          simp only [charListLt, if_neg hab, if_neg hba] at h1
          simp only [charListLt, if_neg hba, if_neg hab] at h2
          rw [hab', ih bs h1 h2]

theorem charListLt_trans : ∀ as bs cs : List Char,
    charListLt as bs = true → charListLt bs cs = true → charListLt as cs = true := by
  intro as
  induction as with
  | nil =>
    intro bs cs h1 h2
    cases bs with
    | nil => simp [charListLt] at h1
    | cons b bs => cases cs with
      | nil => simp [charListLt] at h2
      | cons c cs => simp [charListLt]
  | cons a as ih =>
    intro bs cs h1 h2
    cases bs with
    | nil => simp [charListLt] at h1
    | cons b bs =>
      cases cs with
      | nil => simp [charListLt] at h2
      | cons c cs =>
        by_cases hab : a < b
        · by_cases hbc : b < c
          · simp [charListLt, lt_trans hab hbc]
          · by_cases hcb : c < b
            · simp [charListLt, hbc, hcb] at h2
            · have : b = c := le_antisymm (not_lt.mp hcb) (not_lt.mp hbc)
              subst this
              simp [charListLt, hab]
        · by_cases hba : b < a
          · simp [charListLt, hab, hba] at h1
          · have hab' : a = b := le_antisymm (not_lt.mp hba) (not_lt.mp hab)
            subst hab'
            simp only [charListLt, if_neg hab, if_neg hba] at h1
            by_cases hbc : a < c
            · simp [charListLt, hbc]
            · by_cases hcb : c < a
              · simp [charListLt, hbc, hcb] at h2
              · simp only [charListLt, if_neg hbc, if_neg hcb] at h2 ⊢
                exact ih bs cs h1 h2

theorem strLt_asymm {a b : String} (h : strLt a b = true) : strLt b a = false :=
  charListLt_asymm _ _ h

theorem strLt_connex {a b : String} (h1 : strLt a b = false) (h2 : strLt b a = false) :
    a = b := by
  have h := charListLt_connex _ _ h1 h2
  have : String.mk a.toList = String.mk b.toList := congrArg String.mk h
  exact this

theorem strLt_trans {a b c : String} (h1 : strLt a b = true) (h2 : strLt b c = true) :
    strLt a c = true :=
  charListLt_trans _ _ _ h1 h2

/-! # Lemmas about `insort` and `ensure_used_by` -/

theorem mem_insort (x y : String) : ∀ l : List String, y ∈ insort x l ↔ y = x ∨ y ∈ l := by
  intro l
  induction l with
  | nil => simp [insort]
  | cons z zs ih =>
    by_cases h : strLt x z = true
    · simp [insort, h]
    · simp only [insort, if_neg h, List.mem_cons, ih]
      tauto

theorem pairwise_insort (x : String) :
    ∀ l : List String, l.Pairwise (fun a b => strLt a b = true) → x ∉ l →
      (insort x l).Pairwise (fun a b => strLt a b = true) := by
  intro l
  induction l with
  | nil => intro _ _; simp [insort]
  | cons y ys ih =>
    intro hp hx
    rw [List.pairwise_cons] at hp
    obtain ⟨hy, hys⟩ := hp
    have hxy : x ≠ y := fun h => hx (h ▸ List.mem_cons_self y ys)
    have hxys : x ∉ ys := fun h => hx (List.mem_cons_of_mem y h)
    by_cases h : strLt x y = true
    · rw [insort, if_pos h, List.pairwise_cons]
      refine ⟨?_, List.pairwise_cons.mpr ⟨hy, hys⟩⟩
      intro b hb
      rcases List.mem_cons.mp hb with hb | hb
      · exact hb ▸ h
      · exact strLt_trans h (hy b hb)
    · rw [insort, if_neg h, List.pairwise_cons]
      refine ⟨?_, ih hys hxys⟩
      intro b hb
      rcases (mem_insort x b ys).mp hb with hb | hb
      · subst hb
        rcases hlt : strLt y b with hf | ht
        · exact absurd (strLt_connex (by simpa using h) hlt) hxy
        · rfl
      · exact hy b hb

theorem clearUsedBy_ensure (m : String) (lic : License) :
    clearUsedBy (ensure_used_by m lic) = clearUsedBy lic := by
  unfold ensure_used_by clearUsedBy
  cases lic.usedBy with
  | none => rfl
  | some l =>
    by_cases h : m ∈ l <;> simp [h]

theorem ensure_used_by_idem (m : String) (lic : License) :
    ensure_used_by m (ensure_used_by m lic) = ensure_used_by m lic := by
  unfold ensure_used_by
  cases h : lic.usedBy with
  | none => simp
  | some l =>
    by_cases hm : m ∈ l
    · simp [hm, h]
    · simp [hm, (mem_insort m m l).mpr (Or.inl rfl)]

theorem ensure_preserves_inv (m : String) (lic : License) (h : usedByInv lic) :
    usedByInv (ensure_used_by m lic) := by
  unfold ensure_used_by
  cases hu : lic.usedBy with
  | none =>
    intro l hl
    simp at hl
    subst hl
    simp
  | some l0 =>
    by_cases hm : m ∈ l0
    · simpa [hm] using h
    · intro l hl
      simp [hm] at hl
      subst hl
      exact pairwise_insort m l0 (h l0 hu) hm

/-! # Lemmas about the merge step -/

theorem set_into_license_usedBy (e : SPDXEntry) (lic : License) :
    (set_into_license e lic).usedBy = lic.usedBy := rfl

theorem github_enrich_usedBy (t : SPDX) (lid : Option String) (lic : License) :
    (github_enrich t lid lic).usedBy = lic.usedBy := by
  unfold github_enrich
  rcases lid with _ | lid
  · rfl
  · by_cases h : lid = ""
    · simp [h]
    · simp only [if_neg h]
      rcases get_entry t lid with _ | e <;> rfl

theorem usedByInv_of_eq {a b : License} (h : a.usedBy = b.usedBy) (hb : usedByInv b) :
    usedByInv a := fun l hl => hb l (h ▸ hl)

/-- C1: in `Scanner._adjust_and_add_new_licenses`, whenever an incoming
    entry's module name is already a key of the aggregate mapping, the
    existing entry's fields other than `x-usedBy` are left unchanged: every
    binding present before the merge is still present afterwards with the
    same `clearUsedBy` image (all fields except `x-usedBy` equal).  In
    particular an entry marked `x-manuallyEdited` that is already in the
    mapping keeps every field except `x-usedBy` when any scanner's results
    are merged. -/
theorem merge_preserves_existing_entries (t : SPDX) (net : Network) (modulename : String)
    (news : List License) :
    ∀ (licenses : List (String × License)) (gh : GitHubState)
      (m' : List (String × License)) (gh' : GitHubState),
      adjust_and_add_new_licenses t net modulename news licenses gh = .ok (m', gh') →
      ∀ k v, dictGet licenses k = some v →
        (dictGet m' k).map clearUsedBy = some (clearUsedBy v) := by
  induction news with
  | nil =>
    intro licenses gh m' gh' hok k v hv
    simp only [adjust_and_add_new_licenses, Except.ok.injEq, Prod.mk.injEq] at hok
    obtain ⟨h1, _⟩ := hok
    subst h1
    simp [hv]
  | cons lic rest ih =>
    intro licenses gh m' gh' hok k v hv
    simp only [adjust_and_add_new_licenses] at hok
    split at hok
    · rename_i w heq
      by_cases hs : should_add_to_used_by lic = true
      · rw [if_pos hs] at hok
        by_cases hk : lic.moduleName = k
        · have h2 : dictGet (dictModify licenses lic.moduleName (ensure_used_by modulename)) k
              = some (ensure_used_by modulename v) := by
            rw [dictGet_dictModify, if_pos hk, hv]
            rfl
          have h3 := ih _ _ _ _ hok k _ h2
          rwa [clearUsedBy_ensure] at h3
        · have h2 : dictGet (dictModify licenses lic.moduleName (ensure_used_by modulename)) k
              = some v := by
            rw [dictGet_dictModify, if_neg hk]
            exact hv
          exact ih _ _ _ _ hok k v h2
      · rw [if_neg hs] at hok
        exact ih _ _ _ _ hok k v hv
    · rename_i heq
      have hkk : ¬ lic.moduleName = k := by
        intro h
        rw [h, hv] at heq
        cases heq
      split at hok
      · cases hok
      · rename_i entry hsearch
        have h2 : dictGet (dictSet licenses lic.moduleName
            (set_into_license entry (if should_add_to_used_by lic = true
              then ensure_used_by modulename lic else lic))) k = some v := by
          rw [dictGet_dictSet, if_neg hkk]
          exact hv
        exact ih _ _ _ _ hok k v h2
      · split at hok
        · cases hok
        · rename_i lid hlook
          have h2 : dictGet (dictSet licenses lic.moduleName
              (github_enrich t lid (if should_add_to_used_by lic = true
                then ensure_used_by modulename lic else lic))) k = some v := by
            rw [dictGet_dictSet, if_neg hkk]
            exact hv
          exact ih _ _ _ _ hok k v h2

/-- Witness for C1: merging an incoming entry over the manually edited entry
    `exManual` keeps every field of `exManual` except `x-usedBy`. -/
theorem merge_preserves_existing_entries_inst :
    (dictGet exMergedManual "m").map clearUsedBy = some (clearUsedBy exManual) :=
  merge_preserves_existing_entries exSPDX exNetDown "mod" [exIncoming]
    [("m", exManual)] initGitHubState exMergedManual initGitHubState rfl "m" exManual rfl

/-- Counterexample to C2 as stated: an incoming entry whose pre-existing
    `x-usedBy` list is unsorted (`["b", "a"]`) is inserted into the aggregate
    mapping verbatim, so the final mapping holds an entry whose `x-usedBy`
    list is not lexicographically sorted. -/
theorem usedBy_unsorted_survives_merge :
    adjust_and_add_new_licenses exSPDX exNetDown "mod" [exLicUnsorted] [] initGitHubState
      = .ok ([("A", exLicUnsortedOut)], initGitHubState) ∧
    exLicUnsortedOut.usedBy = some ["b", "a"] ∧
    ¬ List.Pairwise (fun a b => strLt a b = true) ["b", "a"] :=
  ⟨rfl, rfl, by decide⟩

/-- C2 amended: provided every `x-usedBy` list already present in the
    aggregate mapping or carried by an incoming entry is strictly sorted
    (hence de-duplicated and lexicographically ordered), every entry of the
    mapping after the merge step has a strictly sorted `x-usedBy` list; and
    `ensure_used_by` is idempotent: adding the same module name twice leaves
    the entry exactly as after adding it once. -/
theorem merge_usedBy_invariant_and_ensure_idem (t : SPDX) (net : Network) (modulename : String) :
    (∀ (news : List License) (licenses : List (String × License)) (gh : GitHubState)
       (m' : List (String × License)) (gh' : GitHubState),
       mapUsedByInv licenses → (∀ lic ∈ news, usedByInv lic) →
       adjust_and_add_new_licenses t net modulename news licenses gh = .ok (m', gh') →
       mapUsedByInv m') ∧
    (∀ (m : String) (lic : License),
       ensure_used_by m (ensure_used_by m lic) = ensure_used_by m lic) := by
  constructor
  · intro news
    induction news with
    | nil =>
      intro licenses gh m' gh' hm _ hok
      simp only [adjust_and_add_new_licenses, Except.ok.injEq, Prod.mk.injEq] at hok
      obtain ⟨h1, _⟩ := hok
      subst h1
      exact hm
    | cons lic rest ih =>
      intro licenses gh m' gh' hm hnew hok
      have hlic : usedByInv lic := hnew lic (List.mem_cons_self _ _)
      have hrest : ∀ l ∈ rest, usedByInv l := fun l hl => hnew l (List.mem_cons_of_mem _ hl)
      have hlic1 : usedByInv (if should_add_to_used_by lic = true
          then ensure_used_by modulename lic else lic) := by
        split
        · exact ensure_preserves_inv _ _ hlic
        · exact hlic
      simp only [adjust_and_add_new_licenses] at hok
      split at hok
      · by_cases hs : should_add_to_used_by lic = true
        · rw [if_pos hs] at hok
          refine ih _ _ _ _ ?_ hrest hok
          intro k w hw
          rw [dictGet_dictModify] at hw
          split_ifs at hw with hk
          · obtain ⟨w0, hw0, rfl⟩ := Option.map_eq_some'.mp hw
            exact ensure_preserves_inv _ _ (hm _ _ hw0)
          · exact hm _ _ hw
        · rw [if_neg hs] at hok
          exact ih _ _ _ _ hm hrest hok
      · generalize hX : (if should_add_to_used_by lic = true
            then ensure_used_by modulename lic else lic) = licX at hok hlic1
        split at hok
        · cases hok
        · rename_i entry hsearch
          refine ih _ _ _ _ ?_ hrest hok
          intro k w hw
          rw [dictGet_dictSet] at hw
          split_ifs at hw with hk
          · cases hw
            exact usedByInv_of_eq (set_into_license_usedBy _ _) hlic1
          · exact hm _ _ hw
        · split at hok
          · cases hok
          · rename_i lid hlook
            refine ih _ _ _ _ ?_ hrest hok
            intro k w hw
            rw [dictGet_dictSet] at hw
            split_ifs at hw with hk
            · cases hw
              exact usedByInv_of_eq (github_enrich_usedBy _ _ _) hlic1
            · exact hm _ _ hw
  · exact ensure_used_by_idem

/-- Witness for the amended C2: a sorted incoming list stays sorted through
    the merge, and a doubled `ensure_used_by` call changes nothing. -/
theorem merge_usedBy_invariant_and_ensure_idem_inst :
    List.Pairwise (fun a b => strLt a b = true) ["a", "b"] ∧
    ensure_used_by "x" (ensure_used_by "x" exLicSorted) = ensure_used_by "x" exLicSorted := by
  have hmain := merge_usedBy_invariant_and_ensure_idem exSPDX exNetDown "mod"
  constructor
  · have hinv := hmain.1 [exLicSorted] [] initGitHubState exMergedSorted initGitHubState
      (fun _ _ h => nomatch h)
      (by
        intro l hl
        rw [List.mem_singleton] at hl
        subst hl
        intro u hu
        cases hu
        decide)
      rfl
    have h2 := hinv "A" exLicSortedOut rfl
    exact h2 ["a", "b"] rfl
  · exact hmain.2 "x" exLicSorted

/-! # The `_GitHubAPI` claims -/

/-- Counterexample to C3 as stated: after one successful lookup through a
    budget of one, the remaining-call budget is zero, yet a further `lookup`
    for the now-cached organization still returns an answer (`some "MIT"`),
    not `None`.  (It does perform zero network calls.) -/
theorem lookup_budget_zero_cached_answer :
    lookup exNetGH initGitHubState exGHUrl = (.ok (some "MIT"), exGHCached, 2) ∧
    exGHCached.remainingCalls = 0 ∧
    lookup exNetGH exGHCached exGHUrl = (.ok (some "MIT"), exGHCached, 0) :=
  ⟨rfl, rfl, rfl⟩

/-- C3 amended: once the remaining-call budget has reached zero, every
    subsequent `lookup` performs no network calls and leaves the state
    unchanged, and its answer comes from the in-memory per-organization cache
    alone (`none` for any organization that is not cached; URLs without an
    organization/project path still raise as always). -/
theorem lookup_budget_zero_no_network (net : Network) (s : GitHubState) (url : Option String)
    (h : s.remainingCalls = 0) :
    lookup net s url =
      ((match parse_url url with
        | (_, []) => Except.error ()
        | (_, [_]) => Except.error ()
        | (_, _ :: _ :: _) => Except.ok (cachedAnswer s url)), s, 0) := by
  have hcc : can_call_github net s = (false, s, 0) := by
    unfold can_call_github
    rw [h]
    simp
  have hta : ∀ key org, try_api net key org s = (none, s, 0) := by
    intro key org
    unfold try_api
    rw [hcc]
    simp
  unfold lookup cachedAnswer
  rcases hp : parse_url url with ⟨host, segs⟩
  cases segs with
  | nil => rfl
  | cons org t =>
    cases t with
    | nil => rfl
    | cons proj rest =>
      cases hc : dictGet s.cached org with
      | some ps => simp [hc]
      | none =>
        by_cases hh : host = some "github.com"
        · simp [hc, hh, hta]
        · simp [hc, hh]

/-- Witness for the amended C3: at the concrete zero-budget state reached
    after one lookup, a further lookup is answered purely from the cache with
    no network calls and no state change. -/
theorem lookup_budget_zero_no_network_inst :
    lookup exNetGH exGHCached exGHUrl = (.ok (cachedAnswer exGHCached exGHUrl), exGHCached, 0) := by
  have h := lookup_budget_zero_no_network exNetGH exGHCached exGHUrl rfl
  exact h.trans (by rfl)

/-- Counterexample to C4 as stated: `lookup` propagates an exception (the
    `AttributeError` of `None.endswith`) both for a missing URL, as the merge
    passes when an entry has no `moduleUrl`, and for a URL whose path has an
    organization but no project segment. -/
theorem lookup_raises_on_missing_project :
    (lookup exNetDown initGitHubState none).1 = Except.error () ∧
    (lookup exNetDown initGitHubState (some "https://github.com/orgonly")).1 = Except.error () :=
  ⟨rfl, rfl⟩

/-- C4 amended: `lookup` propagates an exception exactly when the URL is
    missing or its path has fewer than two non-empty segments (no parsed
    project); for every other URL the result is a normal answer — every
    network or parsing failure inside the budget check or the repository
    fetches (modelled by the `none` oracle results) is caught and turned into
    a no-answer. -/
theorem lookup_error_iff (net : Network) (s : GitHubState) (url : Option String) :
    (lookup net s url).1 = Except.error () ↔ (parse_url url).2.length ≤ 1 := by
  unfold lookup
  rcases hp : parse_url url with ⟨host, segs⟩
  cases segs with
  | nil => simp
  | cons org t =>
    cases t with
    | nil => simp
    | cons proj rest =>
      simp only [List.length_cons]
      constructor
      · intro habs
        exfalso
        cases hc : dictGet s.cached org with
        | some ps => simp [hc] at habs
        | none =>
          by_cases hh : host = some "github.com"
          · rcases h1 : try_api net "orgs" org s with ⟨r1a, r1s, r1n⟩
            cases r1a with
            | some ps => simp [hc, hh, h1] at habs
            | none =>
              rcases h2 : try_api net "users" org r1s with ⟨r2a, r2s, r2n⟩
              cases r2a with
              | some ps => simp [hc, hh, h1, h2] at habs
              | none => simp [hc, hh, h1, h2] at habs
          · simp [hc, hh] at habs
      · intro hlen
        omega

/-! # The `_SPDX.search` cascade (C5) -/

/-- C5: for every search string, `_SPDX.search` tries exactly the four
    strategies in order — exact id, exact display name, the classifier-quirk
    table (`spdxBSD3 -> BSD-3-Clause`, `Apache-2 -> Apache-2.0`), stripping a
    leading `spdx` prefix — and returns the first match (`none` only when all
    fail): it coincides with the cascade `spec_search` worded from the spec.
    The two hypotheses say the catalog contains the two quirk-target ids,
    which is true of the bundled SPDX license list. -/
theorem spdx_search_cascade (t : SPDX)
    (h1 : (get_entry t "BSD-3-Clause").isSome = true)
    (h2 : (get_entry t "Apache-2.0").isSome = true) :
    ∀ srch, search t srch = spec_search t srch := by
  intro srch
  unfold search spec_search
  cases get_entry t srch with
  | some e => rfl
  | none =>
    cases try_name_search t srch with
    | some e => rfl
    | none =>
      unfold try_ninka_overrides
      by_cases hb : srch = "spdxBSD3"
      · subst hb
        obtain ⟨e, he⟩ := Option.isSome_iff_exists.mp h1
        simp [ninka_fallbacks, dictGet, he]
      · by_cases ha : srch = "Apache-2"
        · subst ha
          obtain ⟨e, he⟩ := Option.isSome_iff_exists.mp h2
          simp [ninka_fallbacks, dictGet, he]
        · have hf : dictGet ninka_fallbacks srch = none := by
            simp [ninka_fallbacks, dictGet, Ne.symm hb, Ne.symm ha]
          rw [hf]

/-- Witness for C5 at a concrete catalog and the quirk string `spdxBSD3`. -/
theorem spdx_search_cascade_inst :
    search exSPDX "spdxBSD3" = spec_search exSPDX "spdxBSD3" :=
  spdx_search_cascade exSPDX (by decide) (by decide) "spdxBSD3"

/-! # `_parse_tarball_name` (C6) -/

theorem breakAtHyphen_append : ∀ (as bs : List Char), ('-' : Char) ∉ as →
    breakAtHyphen (as ++ '-' :: bs) = (as, some bs) := by
  intro as bs h
  induction as with
  | nil => simp [breakAtHyphen]
  | cons a as ih =>
    have ha : ¬ a = '-' := fun hh => h (hh ▸ List.mem_cons_self a as)
    have h' : ('-' : Char) ∉ as := fun hh => h (List.mem_cons_of_mem a hh)
    simp [breakAtHyphen, ha, ih h']

/-- C6: for a tarball filename of the shape `<name>-<version>.tar.gz` (with
    no hyphen inside the name part), `_parse_tarball_name` strips the
    `.tar.gz` suffix and splits the remainder at the first hyphen, deriving
    exactly the name and the version; the spec's example instantiates this at
    `foo-1.2.3.tar.gz`. -/
theorem parse_tarball_name_splits (n v : String) (h : ('-' : Char) ∉ n.toList) :
    (parse_tarball_name (n ++ "-" ++ v ++ ".tar.gz")).1 = n ∧
    (parse_tarball_name (n ++ "-" ++ v ++ ".tar.gz")).2.1 = some v := by
  have hdata : (n ++ "-" ++ v ++ ".tar.gz").toList
      = (n.toList ++ '-' :: v.toList) ++ ".tar.gz".toList := by
    simp [String.toList, String.data_append]
  have hsuf : strEndsWith (n ++ "-" ++ v ++ ".tar.gz") ".tar.gz" = true := by
    unfold strEndsWith
    rw [hdata, List.isSuffixOf_iff_suffix]
    exact ⟨_, rfl⟩
  have hlen : ((n.toList ++ '-' :: v.toList) ++ ".tar.gz".toList).length - 7
      = (n.toList ++ '-' :: v.toList).length := by
    simp [List.length_append]
    omega
  have heq : parse_tarball_name (n ++ "-" ++ v ++ ".tar.gz")
      = (String.mk n.toList, some (String.mk v.toList),
         PREREQS_DIRECTORY ++ "/" ++ String.mk (n.toList ++ '-' :: v.toList)) := by
    unfold parse_tarball_name
    simp only [hsuf, if_true, hdata, hlen, List.take_left, breakAtHyphen_append _ _ h]
    rfl
  rw [heq]
  exact ⟨rfl, rfl⟩

/-- Witness for C6, the spec's own example: `foo-1.2.3.tar.gz` gives name
    `foo` and version `1.2.3`. -/
theorem parse_tarball_name_splits_inst :
    (parse_tarball_name ("foo" ++ "-" ++ "1.2.3" ++ ".tar.gz")).1 = "foo" ∧
    (parse_tarball_name ("foo" ++ "-" ++ "1.2.3" ++ ".tar.gz")).2.1 = some "1.2.3" :=
  parse_tarball_name_splits "foo" "1.2.3" (by decide)

/-! # `_write_licenses` (C7) -/

theorem nameLe_total (a b : License) : nameLe a b = true ∨ nameLe b a = true := by
  unfold nameLe
  cases hba : strLt b.moduleName a.moduleName with
  | false => exact Or.inl (by simp [hba])
  | true => exact Or.inr (by simp [strLt_asymm hba])

theorem nameLe_trans {a b c : License} (h1 : nameLe a b = true) (h2 : nameLe b c = true) :
    nameLe a c = true := by
  unfold nameLe at h1 h2 ⊢
  rw [Bool.not_eq_true'] at h1 h2 ⊢
  cases hca : strLt c.moduleName a.moduleName with
  | false => rfl
  | true =>
    exfalso
    cases hbc : strLt b.moduleName c.moduleName with
    | true =>
      have := strLt_trans hbc hca
      rw [this] at h1
      cases h1
    | false =>
      have hbceq := strLt_connex hbc h2
      rw [hbceq] at h1
      rw [h1] at hca
      cases hca

theorem mem_insertLe (x y : License) : ∀ l : List License,
    y ∈ insertLe x l ↔ y = x ∨ y ∈ l := by
  intro l
  induction l with
  | nil => simp [insertLe]
  | cons z zs ih =>
    by_cases h : nameLe x z = true
    · simp [insertLe, h]
    · simp only [insertLe, if_neg h, List.mem_cons, ih]
      tauto

theorem pairwise_insertLe (x : License) : ∀ l : List License,
    l.Pairwise (fun a b => nameLe a b = true) →
    (insertLe x l).Pairwise (fun a b => nameLe a b = true) := by
  intro l
  induction l with
  | nil => intro _; simp [insertLe]
  | cons y ys ih =>
    intro hp
    rw [List.pairwise_cons] at hp
    obtain ⟨hy, hys⟩ := hp
    by_cases h : nameLe x y = true
    · rw [insertLe, if_pos h, List.pairwise_cons]
      refine ⟨?_, List.pairwise_cons.mpr ⟨hy, hys⟩⟩
      intro b hb
      rcases List.mem_cons.mp hb with hb | hb
      · exact hb ▸ h
      · exact nameLe_trans h (hy b hb)
    · rw [insertLe, if_neg h, List.pairwise_cons]
      refine ⟨?_, ih hys⟩
      intro b hb
      rcases (mem_insertLe x b ys).mp hb with hb | hb
      · subst hb
        rcases nameLe_total y b with ht | ht
        · exact ht
        · exact absurd ht h
      · exact hy b hb

theorem insertLe_perm (x : License) : ∀ l : List License, (insertLe x l).Perm (x :: l) := by
  intro l
  induction l with
  | nil => simp [insertLe]
  | cons y ys ih =>
    by_cases h : nameLe x y = true
    · rw [insertLe, if_pos h]
    · rw [insertLe, if_neg h]
      exact (ih.cons y).trans (List.Perm.swap x y ys)

theorem sortByName_pairwise : ∀ l : List License,
    (sortByName l).Pairwise (fun a b => nameLe a b = true) := by
  intro l
  induction l with
  | nil => simp [sortByName]
  | cons x xs ih => exact pairwise_insertLe x _ ih

theorem sortByName_perm : ∀ l : List License, (sortByName l).Perm l := by
  intro l
  induction l with
  | nil => simp [sortByName]
  | cons x xs ih => exact (insertLe_perm x _).trans (ih.cons x)

/-- C7: if the aggregate mapping is empty, `_write_licenses` leaves the
    filesystem (and in particular any pre-existing report file) untouched;
    if it is non-empty, it ensures the output directory and overwrites the
    report — independently of any prior content — with a permutation of the
    mapping's entries that is sorted by module name. -/
theorem write_licenses_report (licenses : List (String × License)) (fs : ReportFS) :
    (licenses = [] → write_licenses licenses fs = fs) ∧
    (licenses ≠ [] →
      (write_licenses licenses fs).reportFile = some (sortByName (dictValues licenses)) ∧
      (sortByName (dictValues licenses)).Pairwise (fun a b => nameLe a b = true) ∧
      (sortByName (dictValues licenses)).Perm (dictValues licenses) ∧
      (write_licenses licenses fs).depDirExists = true) := by
  constructor
  · intro h
    subst h
    rfl
  · intro h
    have hlen : 0 < licenses.length := List.length_pos.mpr h
    unfold write_licenses
    rw [if_pos hlen]
    exact ⟨rfl, sortByName_pairwise _, sortByName_perm _, rfl⟩

/-- Witness for C7: an empty mapping leaves the prior report `exReport`
    byte-for-byte intact; a one-entry mapping overwrites it with the sorted
    report. -/
theorem write_licenses_report_inst :
    write_licenses [] exReport = exReport ∧
    (write_licenses [("m", exManual)] exReport).reportFile
      = some (sortByName (dictValues [("m", exManual)])) :=
  ⟨(write_licenses_report [] exReport).1 rfl,
   ((write_licenses_report [("m", exManual)] exReport).2 (fun h => nomatch h)).1⟩

/-! # The directory-scanner `Unknown` fallback (C8) -/

/-- Evidence for C8 being broken by a slip in the code: on a directory that
    exists, contains no `LICENSE*` file, but does contain a file literally
    named `None`, the string formatting `"%s/%s" % (directory, None)` makes
    `os.path.isfile` succeed on `<dir>/None`, so `ninka` runs on it and its
    guess (here `MIT`) — not `"Unknown"` — becomes the `moduleLicense`. -/
theorem ninka_runs_on_phantom_none_file :
    ((exEnv.fsys.listDir "d").getD []).all
      (fun e => !(strStartsWith (strUpper e) "LICENSE")) = true ∧
    (license_from_details (details_for_prereq exEnv exPrereq)).moduleLicense = some "MIT" ∧
    (license_from_details (details_for_prereq exEnv exPrereq)).moduleLicense ≠ some "Unknown" :=
  ⟨by decide, by decide, by decide⟩

/-! # The `PipScanner` recursion (C9, C10) -/

theorem pipFold_mono
    (step : String → List (String × License) → Option (Except Unit (List (String × License))))
    (hstep : ∀ req m r, step req m = some (.ok r) →
      ∀ k v, dictGet m k = some v → dictGet r k = some v) :
    ∀ (reqs : List String) m r, pipFold step reqs m = some (.ok r) →
      ∀ k v, dictGet m k = some v → dictGet r k = some v := by
  intro reqs
  induction reqs with
  | nil =>
    intro m r h k v hv
    simp only [pipFold, Option.some.injEq, Except.ok.injEq] at h
    subst h
    exact hv
  | cons req rest ih =>
    intro m r h k v hv
    simp only [pipFold] at h
    cases hs : step req m with
    | none => rw [hs] at h; cases h
    | some e =>
      rw [hs] at h
      cases e with
      | error e0 => simp at h
      | ok m1 => exact ih m1 r h k v (hstep req m m1 hs k v hv)

theorem addPip_mono (env : PipEnv) : ∀ (fuel : Nat) pip ub m r,
    add_pip_license_for env fuel pip ub m = some (.ok r) →
    ∀ k v, dictGet m k = some v → dictGet r k = some v := by
  intro fuel
  induction fuel with
  | zero =>
    intro pip ub m r h
    simp [add_pip_license_for] at h
  | succ f ih =>
    intro pip ub m r h k v hv
    simp only [add_pip_license_for] at h
    by_cases hmem : (dictGet m pip).isSome = true
    · rw [if_pos hmem] at h
      simp only [Option.some.injEq, Except.ok.injEq] at h
      subst h
      exact hv
    · rw [if_neg hmem] at h
      have hpn : ¬ pip = k := by
        intro he
        rw [he, hv] at hmem
        exact hmem rfl
      cases hinfo : env.pipInfo pip with
      | none =>
        simp only [hinfo, Option.some.injEq, Except.ok.injEq] at h
        subst h
        rw [dictGet_dictSet, if_neg hpn]
        exact hv
      | some details =>
        simp only [hinfo] at h
        cases hfold : pipFold (fun req l => add_pip_license_for env f req (some pip) l)
            details.requires m with
        | none => rw [hfold] at h; cases h
        | some e =>
          rw [hfold] at h
          cases e with
          | error e0 => simp at h
          | ok m1 =>
            have hm1 : dictGet m1 k = some v :=
              pipFold_mono _ (fun req mm rr hh => ih req (some pip) mm rr hh)
                details.requires m m1 hfold k v hv
            cases hsearch : searchChecked env.spdx details.license with
            | error e0 => simp [hsearch] at h
            | ok entry0 =>
              simp only [hsearch, Option.some.injEq, Except.ok.injEq] at h
              subst h
              rw [dictGet_dictSet, if_neg hpn]
              exact hm1

theorem pipFold_isSome
    (step : String → List (String × License) → Option (Except Unit (List (String × License)))) :
    ∀ (reqs : List String), (∀ req ∈ reqs, ∀ m, (step req m).isSome = true) →
      ∀ m, (pipFold step reqs m).isSome = true := by
  intro reqs
  induction reqs with
  | nil => intro _ m; simp [pipFold]
  | cons req rest ih =>
    intro hstep m
    simp only [pipFold]
    cases hs : step req m with
    | none =>
      have := hstep req (List.mem_cons_self _ _) m
      rw [hs] at this
      cases this
    | some e =>
      cases e with
      | error e0 => simp
      | ok m1 => exact ih (fun r hr mm => hstep r (List.mem_cons_of_mem _ hr) mm) m1

theorem addPip_total (env : PipEnv) (rank : String → Nat)
    (hrank : ∀ p d q, env.pipInfo p = some d → q ∈ d.requires → rank q < rank p) :
    ∀ (fuel : Nat) pip ub m, rank pip < fuel →
      (add_pip_license_for env fuel pip ub m).isSome = true := by
  intro fuel
  induction fuel with
  | zero => intro pip ub m h; exact absurd h (Nat.not_lt_zero _)
  | succ f ih =>
    intro pip ub m hlt
    simp only [add_pip_license_for]
    by_cases hmem : (dictGet m pip).isSome = true
    · rw [if_pos hmem]
      simp
    · rw [if_neg hmem]
      cases hinfo : env.pipInfo pip with
      | none => simp
      | some details =>
        have hfold : ∀ mm, (pipFold (fun req l => add_pip_license_for env f req (some pip) l)
            details.requires mm).isSome = true := by
          apply pipFold_isSome
          intro req hreq mm
          exact ih req (some pip) mm
            (Nat.lt_of_lt_of_le (hrank pip details req hinfo hreq) (Nat.lt_succ_iff.mp hlt))
        cases hf : pipFold (fun req l => add_pip_license_for env f req (some pip) l)
            details.requires m with
        | none =>
          have := hfold m
          rw [hf] at this
          cases this
        | some e =>
          cases e with
          | error e0 => simp [hf]
          | ok m1 =>
            cases hsearch : searchChecked env.spdx details.license with
            | error e0 => simp [hf, hsearch]
            | ok entry0 => simp [hf, hsearch]

/-- C9: when the `Requires` graph reported by `pip show` is acyclic (witnessed
    by a rank function that strictly decreases along `Requires` edges), the
    recursive walk `_add_pip_license_for` terminates — enough recursion depth
    makes the fuel-indexed embedding return — and first visit wins: a package
    already bound in the mapping is never overwritten, the only guard being
    the `if pip not in licenses` membership check at entry. -/
theorem pip_walk_terminates_first_visit_wins (env : PipEnv) (rank : String → Nat)
    (hrank : ∀ p d q, env.pipInfo p = some d → q ∈ d.requires → rank q < rank p) :
    (∀ fuel pip used_by licenses, rank pip < fuel →
       (add_pip_license_for env fuel pip used_by licenses).isSome = true) ∧
    (∀ fuel pip used_by licenses r,
       add_pip_license_for env fuel pip used_by licenses = some (.ok r) →
       ∀ k v, dictGet licenses k = some v → dictGet r k = some v) :=
  ⟨addPip_total env rank hrank, fun fuel pip ub m r h => addPip_mono env fuel pip ub m r h⟩

/-- Witness for C9 on the concrete acyclic graph `a -> b`: the walk
    terminates within fuel 2. -/
theorem pip_walk_terminates_first_visit_wins_inst :
    (add_pip_license_for exPipEnv 2 "a" none []).isSome = true := by
  have hrank : ∀ p d q, exPipEnv.pipInfo p = some d → q ∈ d.requires → exRank q < exRank p := by
    intro p d q hp hq
    by_cases hpa : p = "a"
    · subst hpa
      simp [exPipEnv, exPipInfo] at hp
      subst hp
      simp at hq
      subst hq
      decide
    · by_cases hpb : p = "b"
      · subst hpb
        simp [exPipEnv, exPipInfo] at hp
        subst hp
        simp at hq
      · simp [exPipEnv, exPipInfo, hpa, hpb] at hp
  exact (pip_walk_terminates_first_visit_wins exPipEnv exRank hrank).1 2 "a" none [] (by decide)

/-- C10: `_SPDX.search` returns normally for every string argument but raises
    (`None.startswith` inside `_try_ninka_overrides`) when handed `None`; the
    interpreter-package scanner does exactly that whenever an installed
    package's metadata has no `License` value, so the scan aborts there. -/
theorem search_none_raises_in_pip_scanner :
    (∀ (t : SPDX) (srch : String), searchChecked t (some srch) = .ok (search t srch)) ∧
    (∀ t : SPDX, searchChecked t none = .error ()) ∧
    (∀ (env : PipEnv) (fuel : Nat) (pip : String) (d : PipDetails) (used_by : Option String)
       (licenses : List (String × License)),
       env.pipInfo pip = some d → d.requires = [] → d.license = none →
       dictGet licenses pip = none →
       add_pip_license_for env (fuel + 1) pip used_by licenses = some (.error ())) := by
  refine ⟨fun t srch => rfl, fun t => rfl, ?_⟩
  intro env fuel pip d ub licenses hinfo hreq hlic hmem
  simp [add_pip_license_for, hmem, hinfo, hreq, hlic, pipFold, searchChecked]

/-- Witness for C10: scanning the installed package `c`, whose metadata has
    no `License` line, propagates the exception. -/
theorem search_none_raises_in_pip_scanner_inst :
    add_pip_license_for exPipEnvNoLicense 1 "c" none [] = some (.error ()) :=
  search_none_raises_in_pip_scanner.2.2 exPipEnvNoLicense 0 "c" {} none [] rfl rfl rfl rfl

end LicenseScanner
